import Mathlib

/-
Verification of the one-relator-group hyperbolicity cascade
(certify_hyperbolicity, IvanovSchupp, BlufsteinMinian, is_cyclically_pinched,
sapirspakulovacondition) against its natural-language specification.

Words in a free group are shallowly embedded as lists of nonzero integers:
positive i is the i-th generator, negative i its inverse (spec section 3).
The external freegroups word-algebra collaborators (free reduction, cyclic
reduction, degree, maximal root, conjugacy into a cyclic subgroup, string
parsing) are modelled from the interface the spec gives in section 6; every
modelled definition carries a doc comment saying so.  All definitions are
executable.
-/

set_option maxHeartbeats 1000000

namespace OneRelatorGroups

/-- One step of free reduction: push letter x onto an already reduced word,
cancelling with the first letter when they are mutually inverse. -/
def reduceStep (x : Int) : List Int → List Int
  | [] => [x]
  | y :: ys => if x = -y then ys else x :: y :: ys

/-- Modelled from the spec: free reduction of a word (section 6, "free
reduction ... of a word"; the external freegroups package applies it when a
word is constructed from a letter list). -/
def freeReduce (w : List Int) : List Int := w.foldr reduceStep []

/-- Formal inverse of a word: reverse the letters and negate each. -/
def wordInv (w : List Int) : List Int := (w.map (fun x => -x)).reverse

/-- Modelled from the spec: word multiplication as free-group elements
(section 6, "word multiplication"): concatenate and freely reduce. -/
def wmul (u v : List Int) : List Int := freeReduce (u ++ v)

/-- Fuelled worker for cyclicDecompose; the fuel (initially the word length)
makes the recursion structural, so that it evaluates inside the kernel. -/
def cyclicDecomposeAux : Nat → List Int → List Int × List Int
  | 0, w => ([], w)
  | _ + 1, [] => ([], [])
  | fuel + 1, x :: ys =>
    if ys.getLast? = some (-x) then
      let p := cyclicDecomposeAux fuel ys.dropLast
      (x :: p.1, p.2)
    else ([], x :: ys)

/-- Split a word w as u * c * u⁻¹ with c cyclically reduced, by repeatedly
stripping mutually inverse first and last letters.  Returns (u, c). -/
def cyclicDecompose (w : List Int) : List Int × List Int :=
  cyclicDecomposeAux w.length w

/-- Modelled from the spec: cyclic reduction of a word (section 6). -/
def cyclicReduce (w : List Int) : List Int := (cyclicDecompose w).2

/-- d-th power of a word by plain concatenation (no reduction needed for
cyclically reduced bases). -/
def wordPow (p : List Int) (d : Nat) : List Int := (List.replicate d p).flatten

/-- Can the cyclically reduced word c be written as (its length/d prefix)
repeated d times? -/
def isRepetition (c : List Int) (d : Nat) : Bool :=
  decide (d ≠ 0) && decide (c.length % d = 0) &&
    decide (wordPow (c.take (c.length / d)) d = c)

/-- Largest d such that the cyclically reduced word c is a d-th power; 1 when
c is not a proper power (also 1 for the empty word). -/
def degreeCR (c : List Int) : Nat :=
  ((List.range (c.length + 1)).filter (fun d => isRepetition c d)).foldr max 1

/-- Modelled from the spec: degree(w), the largest n such that w = z^n for
some z, and 1 if w is not a proper power (section 6). -/
def degree (w : List Int) : Nat := degreeCR (cyclicReduce (freeReduce w))

/-- Modelled from the spec: max_root(w) = (z, n) with w = z^n and n maximal
(section 6).  For w = u c u⁻¹ with c cyclically reduced and c = p^d with d
maximal, the root is u p u⁻¹ with exponent d; the trivial word gets ([], 0). -/
def maxRoot (w : List Int) : List Int × Int :=
  let p := cyclicDecompose (freeReduce w)
  if p.2 = [] then ([], 0)
  else
    let d := degreeCR p.2
    (freeReduce (p.1 ++ p.2.take (p.2.length / d) ++ wordInv p.1), (d : Int))

/-- Is x a cyclic rotation of y (as letter lists)? -/
def isRotationOf (x y : List Int) : Bool :=
  decide (x.length = y.length) &&
    (decide (x.length = 0) ||
      (List.range y.length).any (fun i => decide (((y ++ y).drop i).take x.length = x)))

/-- Modelled from the spec: is_conjugate_into(u, v), whether u is conjugate
to an element of the cyclic subgroup generated by v (section 6).  u is
conjugate to v^n exactly when their cyclic reductions are related by
rotation; this reproduces all the doctest fixtures of the repository. -/
def isConjugateInto (u v : List Int) : Bool :=
  let cu := cyclicReduce (freeReduce u)
  let cv := cyclicReduce (freeReduce v)
  if cu = [] then true
  else if cv = [] then false
  else if cu.length % cv.length ≠ 0 then false
  else
    let k := cu.length / cv.length
    isRotationOf cu (wordPow cv k) || isRotationOf cu (wordPow (wordInv cv) k)

/-- Modelled from the spec: the rank of the free group produced by
parseinputword for an integer-sequence input, the largest generator index
mentioned. -/
def rankOf (w : List Int) : Nat := w.foldr (fun x m => max x.natAbs m) 0

/-- Occurrence count of generator a ignoring sign: mirrors
[abs(x) for x in r2.letters].count(a). -/
def countAbs (w : List Int) (a : Nat) : Nat := (w.map Int.natAbs).count a

/-- Modelled from the spec: letter of a one-character alphabetic generator
name (section 6: lowercase = generator, uppercase = its inverse). -/
def charToLetter (c : Char) : Int :=
  if c.isLower then ((c.toNat : Int) - 96) else -((c.toNat : Int) - 64)

/-- Modelled from the spec: construct a word from a literal alphabetic
string (section 6), freely reducing as the word constructor does. -/
def parseWord (s : String) : List Int := freeReduce (s.data.map charToLetter)

/-- Rotate a word so that its first occurrence of the letter x becomes the
first letter: mirrors therel = therel[firsta:] + therel[:firsta]. -/
def thm3rotToFirst (w : List Int) (x : Int) : List Int :=
  w.drop (w.indexOf x) ++ w.take (w.indexOf x)

/-- The split pieces B and C of Ivanov-Schupp Theorem 3 case (2)
(src/IvanovSchupp.py lines 92-94): therel is the relator rotated so the
a-occurrence is first; B = therel[1:nexta], C = therel[nexta+1:] where nexta
is the position of the a-inverse occurrence. -/
def thm3case2pieces (therel : List Int) (a : Nat) : List Int × List Int :=
  let nexta := 1 + (therel.drop 1).indexOf (-(a : Int))
  (freeReduce ((therel.drop 1).take (nexta - 1)), freeReduce (therel.drop (nexta + 1)))

/-- The verdict of Ivanov-Schupp Theorem 3 case (2) (identical in both
revisions, src/IvanovSchupp.py lines 95-100): first the degree test on both
pieces (case 2b), then the conjugate-into test in either direction (case
2a), else hyperbolic. -/
def thm3case2verdict (therel : List Int) (a : Nat) : Option Bool × Option String :=
  let B := (thm3case2pieces therel a).1
  let C := (thm3case2pieces therel a).2
  if 1 < degree B ∧ 1 < degree C then (some false, some "Thm3(2b)")
  else if isConjugateInto B C || isConjugateInto C B then (some false, some "Thm3(2a)")
  else (some true, some "Thm3(2)")

/-- Collect the pieces of R (which starts with the letter a) lying between
consecutive occurrences of a: mirrors the loop of src/IvanovSchupp.py lines
171-179.  cur is the piece accumulated so far. -/
def thm4piecesGo (a : Int) : List Int → List Int → List (List Int)
  | [], cur => [freeReduce cur]
  | x :: xs, cur =>
    if x = a then freeReduce cur :: thm4piecesGo a xs []
    else thm4piecesGo a xs (cur ++ [x])

/-- The intermediate-piece list T of Ivanov-Schupp Theorem 4; the source loop
runs over R[1:] and appends the final accumulated piece at the last index
(empty when the loop range is empty, that is when R has length at most 1). -/
def thm4pieces (R : List Int) (a : Int) : List (List Int) :=
  if R.length ≤ 1 then [] else thm4piecesGo a (R.drop 1) []

/-- The Theorem 4 attempt for a generator occurring at least 4 times
(src/IvanovSchupp.py lines 163-191): none means the theorem is silent for
this generator and the loop moves on. -/
def thm4attempt (r2 : List Int) (a : Nat) : Option (Option Bool × Option String) :=
  let therel := if r2.count (a : Int) = 0 then wordInv r2 else r2
  if 0 < therel.count (a : Int) ∧ therel.count (-(a : Int)) = 0 then
    let R := thm3rotToFirst therel (a : Int)
    let T := thm4pieces R (a : Int)
    if T.dedup.length = T.length then
      if 4 < R.count (a : Int) then some (some true, some "Thm4")
      else
        if (List.range 4).any (fun i =>
            decide (wmul (wmul (wmul (T.getD (i % 4) []) (wordInv (T.getD ((i + 1) % 4) [])))
              (T.getD ((i + 2) % 4) [])) (wordInv (T.getD ((i + 3) % 4) [])) = [])) then
          some (some false, some "Thm4(3)")
        else some (some true, some "Thm4")
    else none
  else none

/-- The generator loop of the Ivanov-Schupp classifier
(src/IvanovSchupp.py lines 66-193), recursing over the remaining generator
list (range(1, 1+F.rank) at the call sites).  Both revisions of the source
share this loop verbatim. -/
def ivanovSchuppCore (r2 : List Int) : List Nat → Option Bool × Option String
  | [] => (none, none)
  | a :: rest =>
    let acount := countAbs r2 a
    if acount = 0 then ivanovSchuppCore r2 rest
    else if acount = 1 then (some true, some "free")
    else if acount = 2 then
      let therel := thm3rotToFirst (if r2.count (a : Int) = 0 then wordInv r2 else r2) (a : Int)
      if 0 < (therel.drop 1).count (a : Int) then
        let nexta := 1 + (therel.drop 1).indexOf (a : Int)
        let B := freeReduce ((therel.drop 1).take (nexta - 1))
        let C := if nexta < therel.length - 1 then freeReduce (therel.drop (nexta + 1)) else []
        if 1 < degree (wmul B (wordInv C)) then (some false, some "Thm3(1)")
        else (some true, some "Thm3(1)")
      else thm3case2verdict therel a
    else if acount = 3 then
      let therel := if r2.count (a : Int) < r2.count (-(a : Int)) then wordInv r2 else r2
      if 0 < therel.count (-(a : Int)) then
        let firsta := therel.indexOf (a : Int)
        let seconda := 1 + firsta + (therel.drop (1 + firsta)).indexOf (a : Int)
        let nega := therel.indexOf (-(a : Int))
        let rot := if seconda < nega ∨ nega < firsta
          then therel.drop firsta ++ therel.take firsta
          else therel.drop seconda ++ therel.take seconda
        let firsta2 := rot.indexOf (a : Int)
        let seconda2 := 1 + firsta2 + (rot.drop (1 + firsta2)).indexOf (a : Int)
        let nega2 := rot.indexOf (-(a : Int))
        let B := freeReduce ((rot.drop (1 + firsta2)).take (seconda2 - (1 + firsta2)))
        let C := freeReduce ((rot.drop (1 + seconda2)).take (nega2 - (1 + seconda2)))
        let D := freeReduce (rot.drop (1 + nega2))
        let p1 := maxRoot (wmul (wmul (wordInv B) C) B)
        let p2 := maxRoot D
        let q2 := if p2.1 = wordInv p1.1 then (p1.1, -p2.2) else p2
        if p1.1 = q2.1 ∨ p1.1 = [] ∨ q2.1 = [] then
          if p1.2.natAbs = q2.2.natAbs then (some false, some "Thm3(4a)")
          else if p1.2 = -2 * q2.2 ∨ q2.2 = -2 * p1.2 then (some false, some "Thm3(4b)")
          else (some true, some "Thm3(4)")
        else (some true, some "Thm3(4)")
      else
        let rot := thm3rotToFirst therel (a : Int)
        let seconda := 1 + (rot.drop 1).indexOf (a : Int)
        let thirda := 1 + seconda + (rot.drop (1 + seconda)).indexOf (a : Int)
        let B := freeReduce ((rot.drop 1).take (seconda - 1))
        let C := freeReduce ((rot.drop (1 + seconda)).take (thirda - (1 + seconda)))
        let D := freeReduce (rot.drop (1 + thirda))
        let p1 := maxRoot (wmul C (wordInv B))
        let p2 := maxRoot (wmul D (wordInv B))
        let q2 := if p2.1 = wordInv p1.1 then (p1.1, -p2.2) else p2
        if p1.1 = q2.1 ∨ p1.1 = [] ∨ q2.1 = [] then
          if (p1.2 = 0 ∧ 1 < q2.2.natAbs) ∨ (q2.2 = 0 ∧ 1 < p1.2.natAbs) then
            (some false, some "Thm3(3a)")
          else if p1.2.natAbs = q2.2.natAbs ∧ 1 < p1.2.natAbs then (some false, some "Thm3(3b)")
          else if p1.2 ≠ 0 ∧ p1.2 = -q2.2 then (some false, some "Thm3(3c)")
          else if p1.2 ≠ 0 ∧ (p1.2 = 2 * q2.2 ∨ q2.2 = 2 * p1.2) then
            (some false, some "Thm3(3d)")
          else (some true, some "Thm3(3)")
        else (some true, some "Thm3(3)")
    else
      match thm4attempt r2 a with
      | some res => res
      | none => ivanovSchuppCore r2 rest

/-- The standalone Ivanov-Schupp classifier of src/IvanovSchupp.py (lines
6-193, reportreason=True form): raises ValueError when the freely reduced
input is not cyclically reduced. -/
def IvanovSchupp (relator : List Int) : Except String (Option Bool × Option String) :=
  if relator = [] then .ok (some true, some "free")
  else
    let r1 := freeReduce relator
    let r2 := cyclicReduce r1
    if r1 ≠ r2 then .error "Input relator is not cyclically reduced."
    else if 1 < degree r2 then .ok (some true, some "torsion")
    else .ok (ivanovSchuppCore r2 (List.range' 1 (rankOf r1)))

/-- The Ivanov-Schupp revision embedded in src/geometryofonerelatorgroups.py
(lines 211-396, reportreason=True form): it cyclically reduces the parsed
input and proceeds, with no cyclically-reduced check. -/
def ivanovSchuppGeo (relator : List Int) : Option Bool × Option String :=
  if relator = [] then (some true, some "free")
  else
    let r1 := freeReduce relator
    let r2 := cyclicReduce r1
    if 1 < degree r2 then (some true, some "torsion")
    else ivanovSchuppCore r2 (List.range' 1 (rankOf r1))

/-- The scan of is_cyclically_pinched (src/geometryofonerelatorgroups.py
lines 120-143): for each starting index and split length, in product order,
the first prefix/suffix split of the doubled relator whose generator
alphabets are disjoint. -/
def icpFirstSplit (r : List Int) : Option (List Int × List Int) :=
  (List.range r.length).findSome? fun s =>
    (List.range' 1 (r.length - 1)).findSome? fun L =>
      let rr := r ++ r
      let pre := (rr.drop s).take L
      let suf := (rr.drop (s + L)).take (r.length - L)
      if pre.all (fun x => suf.all (fun y => decide (x.natAbs ≠ y.natAbs))) then
        some (pre, suf)
      else none

/-- is_cyclically_pinched with reportpowers=True
(src/geometryofonerelatorgroups.py lines 120-143): the degrees of the first
disjoint split found, or (None, None) when no split exists. -/
def is_cyclically_pinched_powers (relator : List Int) : Option Nat × Option Nat :=
  match icpFirstSplit (freeReduce relator) with
  | some (p, s) => (some (degree p), some (degree s))
  | none => (none, none)

/-- Length of the longest common prefix of two letter lists: mirrors the
longestcommonprefix helper of both T-prime revisions. -/
def lcpLen : List Int → List Int → Nat
  | x :: xs, y :: ys => if x = y then lcpLen xs ys + 1 else 0
  | _, _ => 0

/-- Modelled from the spec: the vertex list of the reduced Whitehead graph
(section 3: vertex set = generators and inverses).  The node order of the
external networkx graph object is not recorded in this repository; the
positive generators followed by the negative ones are used here.  Only the
orientation of the enumerated triples can depend on this choice. -/
def wgNodes (rank : Nat) : List Int :=
  (List.range' 1 rank).map (fun v => (v : Int)) ++
    (List.range' 1 rank).map (fun v => -(v : Int))

/-- The occurrences (h, sign) of the two-letter subword [p, q] in the doubled
relator (sign 1) and the doubled inverse relator (sign -1), with h below the
relator length: mirrors the possible...index lists of both T-prime
revisions. -/
def turnOcc (R : List Int) (p q : Int) : List (Nat × Int) :=
  ((List.range R.length).filter
      (fun h => decide (((R ++ R).drop h).take 2 = [p, q]))).map (fun h => (h, (1 : Int))) ++
    ((List.range R.length).filter
      (fun h => decide (((wordInv R ++ wordInv R).drop h).take 2 = [p, q]))).map
      (fun h => (h, (-1 : Int)))

/-- Modelled from the spec: adjacency in the reduced Whitehead graph (section
3: an edge joins x and y when the two-letter cyclic subword [-x, y] or
[-y, x] occurs in R or its inverse). -/
def wgAdj (R : List Int) (x y : Int) : Bool :=
  decide (x ≠ y) &&
    (!(turnOcc R (-x) y).isEmpty || !(turnOcc R (-y) x).isEmpty)

/-- The ordered vertex triples forming 3-cycles of the reduced Whitehead
graph, enumerated as index combinations i < j < k over the node list with
all three pairwise edges present (both T-prime revisions, identical there).
The adjacency-cube pruning of the source is a pure performance optimization
(spec section 4.3: "not semantically required"): a vertex of a pairwise
adjacent triple always lies on a 3-cycle, so the pruned and unpruned
enumerations coincide. -/
def threeCycles (R : List Int) : List (Int × Int × Int) :=
  let nodes := wgNodes (rankOf R)
  let n := nodes.length
  (List.range n).flatMap fun i =>
    (List.range' (i + 1) (n - (i + 1))).flatMap fun j =>
      (List.range' (j + 1) (n - (j + 1))).filterMap fun k =>
        let x := nodes.getD i 0
        let y := nodes.getD j 0
        let z := nodes.getD k 0
        if wgAdj R x y && wgAdj R y z && wgAdj R z x then some (x, y, z) else none

/-- The overlap function of the T-prime revision in
src/geometryofonerelatorgroups.py (lines 178-194): none is the float('inf')
sentinel returned when the orientation signs are mixed and the two
occurrences abut with zero gap (len(R) - a[0] == b[0]). -/
def overlapGeo (R : List Int) (a b : Nat × Int) : Option Nat :=
  let Rinv := wordInv R
  let L := R.length
  if a.2 = 1 ∧ b.2 = 1 then
    some (lcpLen ((Rinv ++ Rinv).drop (L - a.1 - 1)) ((R ++ R).drop (b.1 + 1)))
  else if a.2 = -1 ∧ b.2 = 1 then
    if L - a.1 = b.1 then none
    else some (lcpLen ((R ++ R).drop (L - a.1 - 1)) ((R ++ R).drop (b.1 + 1)))
  else if a.2 = 1 ∧ b.2 = -1 then
    if L - a.1 = b.1 then none
    else some (lcpLen ((Rinv ++ Rinv).drop (L - a.1 - 1)) ((Rinv ++ Rinv).drop (b.1 + 1)))
  else
    some (lcpLen ((R ++ R).drop (L - a.1 - 1)) ((Rinv ++ Rinv).drop (b.1 + 1)))

/-- Total tripod length in the geometryofonerelatorgroups.py revision: the
sum of the three pairwise overlaps, none (infinite) as soon as one overlap is
the infinite sentinel. -/
def tripodLenGeo (R : List Int) (f s t : Nat × Int) : Option Nat :=
  match overlapGeo R f s, overlapGeo R s t, overlapGeo R t f with
  | some x, some y, some z => some (x + y + z)
  | _, _, _ => none

/-- BlufsteinMinianTprime of src/geometryofonerelatorgroups.py (lines
158-208): True unless some 3-cycle admits a realized tripod of finite length
at least half the relator length. -/
def blufsteinMinianTprimeGeo (relator : List Int) : Bool :=
  let R := freeReduce relator
  (threeCycles R).all fun c =>
    (turnOcc R (-c.2.1) c.1).all fun f =>
      (turnOcc R (-c.2.2) c.2.1).all fun s =>
        (turnOcc R (-c.1) c.2.2).all fun t =>
          match tripodLenGeo R f s t with
          | none => true
          | some n => decide (2 * n < R.length)

/-- The overlap function of the T-prime revision in src/BlufsteinMinian.py
(lines 46-56): always a finite length, no infinite sentinel. -/
def overlapBM (R : List Int) (a b : Nat × Int) : Nat :=
  let Rinv := wordInv R
  let L := R.length
  if a.2 = 1 ∧ b.2 = 1 then
    lcpLen ((R ++ R).drop (a.1 + 1)) ((Rinv ++ Rinv).drop (L - 1 - b.1))
  else if a.2 = -1 ∧ b.2 = 1 then
    lcpLen ((Rinv ++ Rinv).drop (a.1 + 1)) ((Rinv ++ Rinv).drop (L - 1 - b.1))
  else if a.2 = 1 ∧ b.2 = -1 then
    lcpLen ((R ++ R).drop (a.1 + 1)) ((R ++ R).drop (L - 1 - b.1))
  else
    lcpLen ((Rinv ++ Rinv).drop (a.1 + 1)) ((R ++ R).drop (L - 1 - b.1))

/-- BlufsteinMinianTprime of src/BlufsteinMinian.py (lines 19-72): checks
that the input is cyclically reduced (the source raises a name that is not
even defined, InputError; any raise is modelled as the error case), then runs
the same 3-cycle search with its own overlap and no infinite sentinel, and
with the turn labels of each triple read in the opposite orientation. -/
def blufsteinMinianTprimeBM (relator : List Int) : Except String Bool :=
  let r1 := freeReduce relator
  let rel := cyclicReduce r1
  if rel ≠ r1 then .error "Given relator is not cyclically reduced."
  else
    .ok ((threeCycles rel).all fun c =>
      (turnOcc rel (-c.1) c.2.1).all fun f =>
        (turnOcc rel (-c.2.1) c.2.2).all fun s =>
          (turnOcc rel (-c.2.2) c.1).all fun t =>
            decide (2 * (overlapBM rel f s + overlapBM rel s t + overlapBM rel t f)
              < rel.length))

/-- Modelled from the spec: the small-cancellation oracle bound
Cprime_bound(relators) -> rational (section 6; the smallcancellation package
is an external collaborator).  Modelled as the maximal length of a common
prefix of two distinct cyclic streams of R or R inverse, divided by the
length of R. -/
def CprimeBound (R : List Int) : Rat :=
  if R.length = 0 then 0
  else
    let streams := ((List.range R.length).map (fun i => ((R ++ R).drop i).take R.length)) ++
      ((List.range R.length).map (fun i => ((wordInv R ++ wordInv R).drop i).take R.length))
    let m := (streams.mapIdx (fun i u =>
      (streams.mapIdx (fun j v => if i ≠ j then lcpLen u v else 0)).foldr max 0)).foldr max 0
    (m : Rat) / (R.length : Rat)

/-- Modelled from the spec: is_small_cancellation_hyperbolic(relators, bound)
(section 6), the classical small-cancellation sufficient condition applied
with the supplied bound (glossary: C-prime bounds piece length relative to
relator length; the classical hyperbolicity threshold is one sixth). -/
def smallCancellationHyp (_R : List Int) (b : Rat) : Bool := b < 1 / 6

/-- BlufsteinMinian of src/geometryofonerelatorgroups.py (lines 150-156):
compute the C-prime bound when none is supplied, then the short-circuit
conjunction Cprime < 1/4 and BlufsteinMinianTprime(relator). -/
def BlufsteinMinianGeo (relator : List Int) (Cprime : Option Rat) : Bool :=
  let Cp := match Cprime with
    | none => CprimeBound (freeReduce relator)
    | some c => c
  if Cp < 1 / 4 then blufsteinMinianTprimeGeo relator else false

/-- BlufsteinMinian of src/BlufsteinMinian.py (lines 11-17): same
short-circuit conjunction over that file's T-prime revision (which can
raise); when the bound is at least 1/4 the conjunction short-circuits to
False without evaluating the T-prime check. -/
def BlufsteinMinianBM (relator : List Int) (Cprimebound : Option Rat) : Except String Bool :=
  let Cp := match Cprimebound with
    | none => CprimeBound (freeReduce relator)
    | some c => c
  if Cp < 1 / 4 then blufsteinMinianTprimeBM relator else .ok false

/-- certify_hyperbolicity of src/geometryofonerelatorgroups.py (lines
22-117, reportreason=True form), embedded on the path is_minimal=True (the
input is used as the Whitehead-minimal representative, so the external
whitehead_minimal_representative call is skipped), walrus=False and kb=False
(the external GAP and kbmag process fallbacks are skipped, so the tail of
the cascade returns the inconclusive verdict). -/
def certify_hyperbolicity (relator : List Int) : Option Bool × Option String :=
  if relator = [] then (some true, some "free")
  else
    let r2 := freeReduce relator
    if r2.length ≤ 1 then (some true, some "free")
    else if 1 < degree r2 then (some true, some "torsion")
    else
      match is_cyclically_pinched_powers r2 with
      | (some m, n) =>
        if 1 < m ∧ 1 < n.getD 0 then (some false, some "cyclically pinched")
        else (some true, some "cyclically pinched")
      | (none, _) =>
        match (ivanovSchuppGeo r2).1 with
        | some b => (some b, some "Ivanov Schupp")
        | none =>
          let Cp := CprimeBound r2
          if smallCancellationHyp r2 Cp then (some true, some "small cancellation")
          else if BlufsteinMinianGeo r2 (some Cp) then (some true, some "Blufstein Minian")
          else (none, none)

/-- One step of the trace walk of src/SapirSpakulova.py (traces, lines
34-52): add the sign of the letter to the coordinate of its generator.  The
numpy float vectors of the source hold exact small integers, embedded as
integer lists. -/
def traceStep (v : List Int) (letter : Int) : List Int :=
  v.set (letter.natAbs - 1) (v.getD (letter.natAbs - 1) 0 + Int.sign letter)

/-- The endpoint of the trace walk, tr[0][-1] of src/SapirSpakulova.py: the
vector of exponent sums of the relator. -/
def traceEndpoint (relator : List Int) : List Int :=
  relator.foldl traceStep (List.replicate (rankOf relator) 0)

/-- Exponent sum of generator g in the word w. -/
def exponentSum (w : List Int) (g : Nat) : Int :=
  (w.map (fun x => if x.natAbs = g then Int.sign x else 0)).sum

/-- The guard of sapirspakulovacondition (src/SapirSpakulova.py lines 16-19):
raise ValueError when the trace endpoint is the zero vector (np.allclose on
exact integer vectors), otherwise proceed.  Except.ok () means control
reaches the touching loop built on floating-point linear programming (scipy
linprog), which lies outside this shallow embedding and then returns True,
False or None. -/
def sapirspakulovacondition (relator : List Int) : Except String Unit :=
  if (traceEndpoint relator).all (fun c => decide (c = 0)) then
    .error "Sapir-Spakulova condition is not valid for relators  in the commutator subgroup."
  else .ok ()

/-- Equality of Except values is decidable when it is on both components;
needed to evaluate the embedded BlufsteinMinian.py functions in closed
statements. -/
instance {e a : Type} [DecidableEq e] [DecidableEq a] : DecidableEq (Except e a) :=
  fun x y =>
    match x, y with
    | .ok u, .ok v => decidable_of_iff (u = v) (by simp)
    | .error u, .error v => decidable_of_iff (u = v) (by simp)
    | .ok _, .error _ => isFalse (fun h => Except.noConfusion h)
    | .error _, .ok _ => isFalse (fun h => Except.noConfusion h)

/-- C1: in certify_hyperbolicity, for every relator on which the earlier
free/length/torsion steps abstain and is_cyclically_pinched with
reportpowers=True reports a disjoint split with degrees (m, n), m not None:
the result is NotHyperbolic with tag "cyclically pinched" when m > 1 and
n > 1, and Hyperbolic with tag "cyclically pinched" otherwise. -/
theorem certify_cyclically_pinched_branch (R : List Int) (m n : Nat)
    (hne : R ≠ []) (hlen : 1 < (freeReduce R).length)
    (hdeg : degree (freeReduce R) = 1)
    (hicp : is_cyclically_pinched_powers (freeReduce R) = (some m, some n)) :
    certify_hyperbolicity R =
      if 1 < m ∧ 1 < n then (some false, some "cyclically pinched")
      else (some true, some "cyclically pinched") := by
  unfold certify_hyperbolicity
  rw [if_neg hne, if_neg (by omega), if_neg (by rw [hdeg]; omega), hicp]
  rfl

/-- Witness for C1 at the doctest relator. -/
theorem certify_cyclically_pinched_branch_witness :
    (([1, 2, -1, -2, 3, 4, -3, -4] : List Int) ≠ []
      ∧ 1 < (freeReduce [1, 2, -1, -2, 3, 4, -3, -4]).length
      ∧ degree (freeReduce [1, 2, -1, -2, 3, 4, -3, -4]) = 1
      ∧ is_cyclically_pinched_powers (freeReduce [1, 2, -1, -2, 3, 4, -3, -4])
          = (some 1, some 1))
    ∧ certify_hyperbolicity [1, 2, -1, -2, 3, 4, -3, -4]
        = (some true, some "cyclically pinched") := by
  refine ⟨⟨by decide, by decide, by decide, by decide⟩, ?_⟩
  have h := certify_cyclically_pinched_branch [1, 2, -1, -2, 3, 4, -3, -4] 1 1
    (by decide) (by decide) (by decide) (by decide)
  simpa using h

/-- C4: BlufsteinMinian(relator, b) is True exactly when b < 1/4 and the
T-prime check returns True; with no supplied bound the C-prime bound of the
relator itself enters the same conjunction.  Stated for both duplicated
revisions of the wrapper (src/BlufsteinMinian.py lines 11-17 and
src/geometryofonerelatorgroups.py lines 150-156). -/
theorem blufsteinMinian_contract (R : List Int) (b : Rat) :
    (BlufsteinMinianGeo R (some b) = true ↔
      b < 1 / 4 ∧ blufsteinMinianTprimeGeo R = true)
    ∧ (BlufsteinMinianGeo R none = true ↔
      CprimeBound (freeReduce R) < 1 / 4 ∧ blufsteinMinianTprimeGeo R = true)
    ∧ (BlufsteinMinianBM R (some b) = .ok true ↔
      b < 1 / 4 ∧ blufsteinMinianTprimeBM R = .ok true)
    ∧ (BlufsteinMinianBM R none = .ok true ↔
      CprimeBound (freeReduce R) < 1 / 4 ∧ blufsteinMinianTprimeBM R = .ok true) := by
  refine ⟨?_, ?_, ?_, ?_⟩
  · by_cases hb : b < 1 / 4
    · simp only [BlufsteinMinianGeo, if_pos hb]
      exact ⟨fun h => ⟨hb, h⟩, fun h => h.2⟩
    · simp only [BlufsteinMinianGeo, if_neg hb]
      exact iff_of_false (by simp) (fun h => hb h.1)
  · by_cases hb : CprimeBound (freeReduce R) < 1 / 4
    · simp only [BlufsteinMinianGeo, if_pos hb]
      exact ⟨fun h => ⟨hb, h⟩, fun h => h.2⟩
    · simp only [BlufsteinMinianGeo, if_neg hb]
      exact iff_of_false (by simp) (fun h => hb h.1)
  · by_cases hb : b < 1 / 4
    · simp only [BlufsteinMinianBM, if_pos hb]
      exact ⟨fun h => ⟨hb, h⟩, fun h => h.2⟩
    · simp only [BlufsteinMinianBM, if_neg hb]
      exact iff_of_false (by simp) (fun h => hb h.1)
  · by_cases hb : CprimeBound (freeReduce R) < 1 / 4
    · simp only [BlufsteinMinianBM, if_pos hb]
      exact ⟨fun h => ⟨hb, h⟩, fun h => h.2⟩
    · simp only [BlufsteinMinianBM, if_neg hb]
      exact iff_of_false (by simp) (fun h => hb h.1)

/-- C6 counterexample: the Ivanov-Schupp revision inside
src/geometryofonerelatorgroups.py does not raise on the freely reduced but
not cyclically reduced input [2, 1, -2]; it silently cyclically reduces and
returns the verdict of the reduced relator. -/
theorem ivanovSchuppGeo_silently_reduces :
    freeReduce [2, 1, -2] = [2, 1, -2]
    ∧ cyclicReduce [2, 1, -2] ≠ [2, 1, -2]
    ∧ ivanovSchuppGeo [2, 1, -2] = (some true, some "free")
    ∧ ivanovSchuppGeo [2, 1, -2] = ivanovSchuppGeo (cyclicReduce [2, 1, -2]) := by
  decide

/-- C6 amended: the standalone classifier of src/IvanovSchupp.py raises
ValueError immediately on every freely reduced but not cyclically reduced
input instead of returning a verdict. -/
theorem ivanovSchupp_error_not_cyclically_reduced (w : List Int)
    (hfr : freeReduce w = w) (hcr : cyclicReduce w ≠ w) :
    IvanovSchupp w = .error "Input relator is not cyclically reduced." := by
  have hne : w ≠ [] := by
    intro h
    exact hcr (by rw [h]; rfl)
  unfold IvanovSchupp
  rw [if_neg hne, hfr, if_pos (Ne.symm hcr)]

/-- Witness for the amended C6 theorem. -/
theorem ivanovSchupp_error_not_cyclically_reduced_witness :
    (freeReduce [2, 1, -2] = [2, 1, -2] ∧ cyclicReduce [2, 1, -2] ≠ [2, 1, -2])
    ∧ IvanovSchupp [2, 1, -2] = .error "Input relator is not cyclically reduced." := by
  exact ⟨⟨by decide, by decide⟩,
    ivanovSchupp_error_not_cyclically_reduced [2, 1, -2] (by decide) (by decide)⟩

/-- C7 counterexample: the two duplicated revisions of the T-prime check are
not extensionally equal; they disagree on the cyclically reduced relator
[1, 2, 1, 1, -2, 1, 2]. -/
theorem blufsteinMinianTprime_revisions_disagree :
    blufsteinMinianTprimeBM [1, 2, 1, 1, -2, 1, 2] ≠
      Except.ok (blufsteinMinianTprimeGeo [1, 2, 1, 1, -2, 1, 2]) := by
  decide

/-- C7 amended: on the cyclically reduced relator [1, 2, 1, 1, -2, 1, 2] the
geometryofonerelatorgroups.py revision (whose infinite sentinel excludes
abutting tripod configurations) returns True while the BlufsteinMinian.py
revision (which measures a finite overlap there) returns False. -/
theorem blufsteinMinianTprime_divergence_point :
    freeReduce [1, 2, 1, 1, -2, 1, 2] = [1, 2, 1, 1, -2, 1, 2]
    ∧ cyclicReduce [1, 2, 1, 1, -2, 1, 2] = [1, 2, 1, 1, -2, 1, 2]
    ∧ blufsteinMinianTprimeGeo [1, 2, 1, 1, -2, 1, 2] = true
    ∧ blufsteinMinianTprimeBM [1, 2, 1, 1, -2, 1, 2] = Except.ok false := by
  decide

/-- C9: the literal fixture verdicts of the standalone classifier. -/
theorem ivanovSchupp_fixture_verdicts :
    IvanovSchupp (parseWord "abaCBC") = .ok (some false, some "Thm3(1)")
    ∧ IvanovSchupp (parseWord "ababcbc") = .ok (some true, some "Thm3(1)")
    ∧ IvanovSchupp (parseWord "ababcBCababccc") = .ok (none, none) := by
  refine ⟨?_, ?_, ?_⟩ <;> rfl

/-- C5 counterexample: for u = [1, 2] and v = [3, 3] (nonempty, disjoint
generator alphabets) the scan finds the earlier disjoint split
([1], [2, 3, 3]) of u conjoined with v and reports its degrees (1, 1), not
(degree u, degree v) = (1, 2). -/
theorem is_cyclically_pinched_not_uv_degrees :
    (([1, 2] : List Int) ≠ [] ∧ ([3, 3] : List Int) ≠ []
      ∧ (∀ x ∈ ([1, 2] : List Int), ∀ y ∈ ([3, 3] : List Int), x.natAbs ≠ y.natAbs))
    ∧ is_cyclically_pinched_powers ([1, 2] ++ [3, 3]) = (some 1, some 1)
    ∧ (some (degree [1, 2]), some (degree [3, 3])) = (some 1, some 2)
    ∧ is_cyclically_pinched_powers ([1, 2] ++ [3, 3]) ≠
        (some (degree [1, 2]), some (degree [3, 3])) := by
  refine ⟨⟨by decide, by decide, by decide⟩, by decide, by decide, by decide⟩

theorem foldl_traceStep_length (w v : List Int) :
    (w.foldl traceStep v).length = v.length := by
  induction w generalizing v with
  | nil => rfl
  | cons x xs ih =>
    rw [List.foldl_cons, ih]
    simp [traceStep]

theorem traceStep_getD (v : List Int) (x : Int) (i : Nat) (hi : i < v.length) (hx : x ≠ 0) :
    (traceStep v x).getD i 0 = v.getD i 0 + (if x.natAbs = i + 1 then Int.sign x else 0) := by
  have hxa : 1 ≤ x.natAbs := by
    rcases Int.natAbs_eq x with h | h <;> omega
  unfold traceStep
  by_cases hc : x.natAbs = i + 1
  · have hidx : x.natAbs - 1 = i := by omega
    rw [if_pos hc, hidx]
    rw [List.getD_eq_getElem _ _ (by simpa using hi),
      List.getElem_set_self (by simpa using hi), List.getD_eq_getElem _ _ hi]
  · rw [if_neg hc, add_zero]
    by_cases hr : x.natAbs - 1 < v.length
    · rw [List.getD_eq_getElem _ _ (by simpa using hi),
        List.getElem_set_ne (by omega) (by simpa using hi), List.getD_eq_getElem _ _ hi]
    · rw [List.set_eq_of_length_le (by omega)]

theorem foldl_traceStep_getD (w : List Int) (v : List Int) (i : Nat) (hi : i < v.length)
    (hnz : ∀ x ∈ w, x ≠ 0) :
    (w.foldl traceStep v).getD i 0 = v.getD i 0 + exponentSum w (i + 1) := by
  induction w generalizing v with
  | nil => simp [exponentSum]
  | cons x xs ih =>
    have hx : x ≠ 0 := hnz x (by simp)
    have hlen : (traceStep v x).length = v.length := by simp [traceStep]
    rw [List.foldl_cons, ih (traceStep v x) (by omega) (fun y hy => hnz y (by simp [hy])),
      traceStep_getD v x i hi hx]
    have : exponentSum (x :: xs) (i + 1) =
        (if x.natAbs = i + 1 then Int.sign x else 0) + exponentSum xs (i + 1) := by
      simp [exponentSum]
    rw [this]
    ring

/-- C10: for every relator with nonzero letters lying in the commutator
subgroup (every generator has exponent sum zero, so the final trace vector is
the zero vector), sapirspakulovacondition raises a ValueError instead of
proceeding to the True/False/None computation. -/
theorem sapirspakulova_commutator_guard (w : List Int)
    (hnz : ∀ x ∈ w, x ≠ 0)
    (hzero : ∀ g ∈ List.range' 1 (rankOf w), exponentSum w g = 0) :
    sapirspakulovacondition w =
      .error "Sapir-Spakulova condition is not valid for relators  in the commutator subgroup." := by
  unfold sapirspakulovacondition
  rw [if_pos]
  rw [List.all_eq_true]
  intro c hc
  rw [List.mem_iff_getElem] at hc
  obtain ⟨i, hilen, hc⟩ := hc
  have hlen : (traceEndpoint w).length = rankOf w := by
    unfold traceEndpoint
    rw [foldl_traceStep_length, List.length_replicate]
  have hirank : i < rankOf w := by omega
  have hrep : i < (List.replicate (rankOf w) (0 : Int)).length := by
    simpa using hirank
  have hgd : (traceEndpoint w).getD i 0 = 0 := by
    unfold traceEndpoint
    rw [foldl_traceStep_getD w _ i hrep hnz]
    rw [List.getD_eq_getElem _ _ hrep, List.getElem_replicate]
    rw [hzero (i + 1) (by rw [List.mem_range'_1]; omega)]
    ring
  rw [List.getD_eq_getElem _ _ (by rw [hlen]; exact hirank)] at hgd
  rw [← hc, hgd]
  simp

/-- Witness for C10 at the commutator relator [1, 2, -1, -2]. -/
theorem sapirspakulova_commutator_guard_witness :
    ((∀ x ∈ ([1, 2, -1, -2] : List Int), x ≠ 0)
      ∧ (∀ g ∈ List.range' 1 (rankOf [1, 2, -1, -2]), exponentSum [1, 2, -1, -2] g = 0))
    ∧ sapirspakulovacondition [1, 2, -1, -2] =
      .error "Sapir-Spakulova condition is not valid for relators  in the commutator subgroup." := by
  exact ⟨⟨by decide, by decide⟩,
    sapirspakulova_commutator_guard [1, 2, -1, -2] (by decide) (by decide)⟩

/-- C3: in the geometryofonerelatorgroups.py T-prime check, a candidate
tripod causes the immediate False return exactly when its total length is
finite (no abutting sentinel among its three overlaps) and twice that length
is at least the relator length; and every overlap whose orientation signs
are mixed with the abutting zero-gap offset is marked with the infinite
sentinel (none), hence can never trigger the False return. -/
theorem blufsteinMinianTprimeGeo_spec (w : List Int)
    (hfr : freeReduce w = w) (_hcr : cyclicReduce w = w) :
    (blufsteinMinianTprimeGeo w = false ↔
      ∃ c ∈ threeCycles w, ∃ f ∈ turnOcc w (-c.2.1) c.1, ∃ s ∈ turnOcc w (-c.2.2) c.2.1,
        ∃ t ∈ turnOcc w (-c.1) c.2.2,
          ∃ n, tripodLenGeo w f s t = some n ∧ w.length ≤ 2 * n)
    ∧ (∀ a b : Nat × Int, ((a.2 = -1 ∧ b.2 = 1) ∨ (a.2 = 1 ∧ b.2 = -1)) →
        w.length - a.1 = b.1 → overlapGeo w a b = none) := by
  constructor
  · have key : blufsteinMinianTprimeGeo w = true ↔
        ∀ c ∈ threeCycles w, ∀ f ∈ turnOcc w (-c.2.1) c.1, ∀ s ∈ turnOcc w (-c.2.2) c.2.1,
          ∀ t ∈ turnOcc w (-c.1) c.2.2,
            ∀ n, tripodLenGeo w f s t = some n → 2 * n < w.length := by
      unfold blufsteinMinianTprimeGeo
      rw [hfr]
      simp only [List.all_eq_true]
      constructor
      · intro h c hc f hf s hs t ht n hn
        have h2 := h c hc f hf s hs t ht
        rw [hn] at h2
        simpa using h2
      · intro h c hc f hf s hs t ht
        cases hn : tripodLenGeo w f s t with
        | none => rfl
        | some n => simpa using h c hc f hf s hs t ht n hn
    have hbf : (blufsteinMinianTprimeGeo w = false) ↔
        ¬(blufsteinMinianTprimeGeo w = true) := by
      cases hgeo : blufsteinMinianTprimeGeo w <;> simp
    rw [hbf, key]
    push_neg
    rfl
  · intro a b hmix habut
    rcases hmix with ⟨ha, hb⟩ | ⟨ha, hb⟩
    · unfold overlapGeo
      rw [ha, hb]
      rw [if_neg (by norm_num), if_pos ⟨rfl, rfl⟩, if_pos habut]
    · unfold overlapGeo
      rw [ha, hb]
      rw [if_neg (by norm_num), if_neg (by norm_num), if_pos ⟨rfl, rfl⟩, if_pos habut]

/-- Witness for C3 at the cyclically reduced relator [1, 2, 1, 1, -2, 1, 2]
(on which the geometryofonerelatorgroups.py revision returns True, so the
right-hand side of the iff is refuted as well). -/
theorem blufsteinMinianTprimeGeo_spec_witness :
    (freeReduce [1, 2, 1, 1, -2, 1, 2] = [1, 2, 1, 1, -2, 1, 2]
      ∧ cyclicReduce [1, 2, 1, 1, -2, 1, 2] = [1, 2, 1, 1, -2, 1, 2])
    ∧ ((blufsteinMinianTprimeGeo [1, 2, 1, 1, -2, 1, 2] = false ↔
      ∃ c ∈ threeCycles [1, 2, 1, 1, -2, 1, 2],
        ∃ f ∈ turnOcc [1, 2, 1, 1, -2, 1, 2] (-c.2.1) c.1,
          ∃ s ∈ turnOcc [1, 2, 1, 1, -2, 1, 2] (-c.2.2) c.2.1,
            ∃ t ∈ turnOcc [1, 2, 1, 1, -2, 1, 2] (-c.1) c.2.2,
              ∃ n, tripodLenGeo [1, 2, 1, 1, -2, 1, 2] f s t = some n
                ∧ (List.length [1, 2, 1, 1, -2, 1, 2]) ≤ 2 * n)
    ∧ (∀ a b : Nat × Int, ((a.2 = -1 ∧ b.2 = 1) ∨ (a.2 = 1 ∧ b.2 = -1)) →
        (List.length [1, 2, 1, 1, -2, 1, 2]) - a.1 = b.1 →
          overlapGeo [1, 2, 1, 1, -2, 1, 2] a b = none)) := by
  exact ⟨⟨by decide, by decide⟩,
    blufsteinMinianTprimeGeo_spec [1, 2, 1, 1, -2, 1, 2] (by decide) (by decide)⟩

/-- C5 amended: on a concatenation u ++ v of nonempty words over disjoint
generator alphabets the scan of is_cyclically_pinched always finds a disjoint
split (so neither reported degree is None), and the reported pair is
(degree p, degree s) for the first disjoint split (p, s) in scan order,
which is itself a nonempty disjoint prefix/suffix split of a rotation of
u ++ v, though not necessarily (u, v) itself. -/
theorem is_cyclically_pinched_finds_disjoint_split (u v : List Int)
    (hu : u ≠ []) (hv : v ≠ []) (hred : freeReduce (u ++ v) = u ++ v)
    (hdisj : ∀ x ∈ u, ∀ y ∈ v, x.natAbs ≠ y.natAbs) :
    ∃ p s : List Int, p ≠ [] ∧ s ≠ [] ∧ (∀ x ∈ p, ∀ y ∈ s, x.natAbs ≠ y.natAbs) ∧
      icpFirstSplit (u ++ v) = some (p, s) ∧
      is_cyclically_pinched_powers (u ++ v) = (some (degree p), some (degree s)) := by
  have hul : 0 < u.length := List.length_pos.mpr hu
  have hvl : 0 < v.length := List.length_pos.mpr hv
  have hrlen : (u ++ v).length = u.length + v.length := List.length_append u v
  have hexists : icpFirstSplit (u ++ v) ≠ none := by
    intro hnone
    rw [icpFirstSplit, List.findSome?_eq_none_iff] at hnone
    have h0 := hnone 0 (by rw [List.mem_range]; omega)
    rw [List.findSome?_eq_none_iff] at h0
    have h1 := h0 u.length (by rw [List.mem_range'_1]; omega)
    have hpre : ((((u ++ v) ++ (u ++ v)).drop 0).take u.length) = u := by
      rw [List.drop_zero, List.append_assoc, List.take_left]
    have hsuf : ((((u ++ v) ++ (u ++ v)).drop (0 + u.length)).take ((u ++ v).length - u.length))
        = v := by
      rw [Nat.zero_add, List.append_assoc, List.drop_left]
      have hnv : (u ++ v).length - u.length = v.length := by omega
      rw [hnv, List.take_left]
    have h1' : (if ((((u ++ v) ++ (u ++ v)).drop 0).take u.length).all
          (fun x => ((((u ++ v) ++ (u ++ v)).drop (0 + u.length)).take
              ((u ++ v).length - u.length)).all
            (fun y => decide (x.natAbs ≠ y.natAbs)))
        then some ((((u ++ v) ++ (u ++ v)).drop 0).take u.length,
          (((u ++ v) ++ (u ++ v)).drop (0 + u.length)).take ((u ++ v).length - u.length))
        else none) = none := h1
    rw [hpre, hsuf, if_pos] at h1'
    · exact Option.noConfusion h1'
    · rw [List.all_eq_true]
      intro x hx
      rw [List.all_eq_true]
      intro y hy
      exact decide_eq_true (hdisj x hx y hy)
  obtain ⟨pr, hpr0⟩ := Option.ne_none_iff_exists'.mp hexists
  have hpr := hpr0
  rw [icpFirstSplit] at hpr
  obtain ⟨s0, hs0, hinner⟩ := List.exists_of_findSome?_eq_some hpr
  obtain ⟨L0, hL0, hf⟩ := List.exists_of_findSome?_eq_some hinner
  rw [List.mem_range] at hs0
  rw [List.mem_range'_1] at hL0
  have hf' : (if ((((u ++ v) ++ (u ++ v)).drop s0).take L0).all
        (fun x => ((((u ++ v) ++ (u ++ v)).drop (s0 + L0)).take ((u ++ v).length - L0)).all
          (fun y => decide (x.natAbs ≠ y.natAbs)))
      then some ((((u ++ v) ++ (u ++ v)).drop s0).take L0,
        (((u ++ v) ++ (u ++ v)).drop (s0 + L0)).take ((u ++ v).length - L0))
      else none) = some pr := hf
  by_cases hcond : ((((u ++ v) ++ (u ++ v)).drop s0).take L0).all
      (fun x => ((((u ++ v) ++ (u ++ v)).drop (s0 + L0)).take ((u ++ v).length - L0)).all
        (fun y => decide (x.natAbs ≠ y.natAbs))) = true
  · rw [if_pos hcond] at hf'
    have hpreq : pr = ((((u ++ v) ++ (u ++ v)).drop s0).take L0,
        (((u ++ v) ++ (u ++ v)).drop (s0 + L0)).take ((u ++ v).length - L0)) :=
      (Option.some.inj hf').symm
    subst hpreq
    have hrrlen : ((u ++ v) ++ (u ++ v)).length = 2 * (u ++ v).length := by
      rw [List.length_append]
      omega
    have hPlen : ((((u ++ v) ++ (u ++ v)).drop s0).take L0).length = L0 := by
      rw [List.length_take, List.length_drop]
      omega
    have hSlen : ((((u ++ v) ++ (u ++ v)).drop (s0 + L0)).take
        ((u ++ v).length - L0)).length = (u ++ v).length - L0 := by
      rw [List.length_take, List.length_drop]
      omega
    refine ⟨_, _, ?_, ?_, ?_, hpr0, ?_⟩
    · exact List.length_pos.mp (by omega)
    · exact List.length_pos.mp (by omega)
    · intro x hx y hy
      rw [List.all_eq_true] at hcond
      have hx2 := hcond x hx
      rw [List.all_eq_true] at hx2
      exact of_decide_eq_true (hx2 y hy)
    · unfold is_cyclically_pinched_powers
      rw [hred, hpr0]
  · rw [if_neg hcond] at hf'
    exact Option.noConfusion hf'

/-- Witness for the amended C5 theorem at u = [1, 2], v = [3, 3]. -/
theorem is_cyclically_pinched_finds_disjoint_split_witness :
    (([1, 2] : List Int) ≠ [] ∧ ([3, 3] : List Int) ≠ []
      ∧ freeReduce ([1, 2] ++ [3, 3]) = [1, 2] ++ [3, 3]
      ∧ (∀ x ∈ ([1, 2] : List Int), ∀ y ∈ ([3, 3] : List Int), x.natAbs ≠ y.natAbs))
    ∧ (∃ p s : List Int, p ≠ [] ∧ s ≠ [] ∧ (∀ x ∈ p, ∀ y ∈ s, x.natAbs ≠ y.natAbs) ∧
      icpFirstSplit ([1, 2] ++ [3, 3]) = some (p, s) ∧
      is_cyclically_pinched_powers ([1, 2] ++ [3, 3]) = (some (degree p), some (degree s))) := by
  exact ⟨⟨by decide, by decide, by decide, by decide⟩,
    is_cyclically_pinched_finds_disjoint_split [1, 2] [3, 3]
      (by decide) (by decide) (by decide) (by decide)⟩

theorem countAbs_eq_count_add_count (w : List Int) (a : Nat) (ha : 1 ≤ a) :
    countAbs w a = w.count (a : Int) + w.count (-(a : Int)) := by
  induction w with
  | nil => rfl
  | cons x xs ih =>
    show ((x :: xs).map Int.natAbs).count a = _
    rw [List.map_cons]
    by_cases h1 : x = (a : Int)
    · rw [h1, show ((a : Int).natAbs) = a from Int.natAbs_ofNat a]
      rw [List.count_cons_self, List.count_cons_self,
        List.count_cons_of_ne (by omega : -(a : Int) ≠ (a : Int))]
      have : (xs.map Int.natAbs).count a = countAbs xs a := rfl
      rw [this, ih]
      omega
    · by_cases h2 : x = -(a : Int)
      · rw [h2, show ((-(a : Int)).natAbs) = a from by simp]
        rw [List.count_cons_self, List.count_cons_self,
          List.count_cons_of_ne (by omega : (a : Int) ≠ -(a : Int))]
        have : (xs.map Int.natAbs).count a = countAbs xs a := rfl
        rw [this, ih]
        omega
      · have hna : a ≠ x.natAbs := by
          intro hc
          rcases Int.natAbs_eq_iff.mp hc.symm with h | h
          · exact h1 h
          · exact h2 h
        rw [List.count_cons_of_ne hna, List.count_cons_of_ne (Ne.symm h1),
          List.count_cons_of_ne (Ne.symm h2)]
        exact ih

theorem le_rankOf_of_mem (w : List Int) (x : Int) (h : x ∈ w) : x.natAbs ≤ rankOf w := by
  induction w with
  | nil => cases h
  | cons y ys ih =>
    show x.natAbs ≤ max y.natAbs (rankOf ys)
    rcases List.mem_cons.mp h with h | h
    · rw [h]
      exact le_max_left _ _
    · exact le_trans (ih h) (le_max_right _ _)

theorem indexOf_decomp (w : List Int) (x : Int) (h : x ∈ w) :
    ∃ u v, w = u ++ x :: v ∧ w.indexOf x = u.length ∧
      w.drop (w.indexOf x) = x :: v ∧ w.take (w.indexOf x) = u := by
  induction w with
  | nil => cases h
  | cons y ys ih =>
    by_cases hy : y = x
    · subst hy
      exact ⟨[], ys, rfl, List.indexOf_cons_self y ys,
        by rw [List.indexOf_cons_self, List.drop_zero],
        by rw [List.indexOf_cons_self, List.take_zero]⟩
    · have hx : x ∈ ys := by
        rcases List.mem_cons.mp h with h | h
        · exact absurd h.symm hy
        · exact h
      obtain ⟨u, v, h1, h3, h4, h5⟩ := ih hx
      refine ⟨y :: u, v, by rw [List.cons_append, h1], ?_, ?_, ?_⟩
      · rw [List.indexOf_cons_ne ys hy, h3]
        rfl
      · rw [List.indexOf_cons_ne ys hy, List.drop_succ_cons, h4]
      · rw [List.indexOf_cons_ne ys hy, List.take_succ_cons, h5]

theorem rotToFirst_count_one (w : List Int) (x : Int) (h : w.count x = 1) :
    ∃ tl, thm3rotToFirst w x = x :: tl ∧ tl.count x = 0 := by
  have hmem : x ∈ w := List.count_pos_iff.mp (by omega)
  obtain ⟨u, v, h1, h3, h4, h5⟩ := indexOf_decomp w x hmem
  refine ⟨v ++ u, ?_, ?_⟩
  · unfold thm3rotToFirst
    rw [h4, h5]
    rfl
  · have hcnt : w.count x = u.count x + (v.count x + 1) := by
      rw [h1, List.count_append, List.count_cons_self]
    rw [List.count_append]
    omega

theorem ivanovSchuppCore_skip (r2 : List Int) (b : Nat) (rest : List Nat)
    (h : countAbs r2 b = 0) :
    ivanovSchuppCore r2 (b :: rest) = ivanovSchuppCore r2 rest := by
  simp only [ivanovSchuppCore]
  rw [if_pos h]

theorem ivanovSchuppCore_reach (r2 : List Int) (a : Nat) :
    ∀ n s, s ≤ a → a < s + n → (∀ b, s ≤ b → b < a → countAbs r2 b = 0) →
      ivanovSchuppCore r2 (List.range' s n) = ivanovSchuppCore r2 (List.range' a (s + n - a))
  | 0, s => by
    intro hs hlt _
    omega
  | n + 1, s => by
    intro hs hlt hzero
    by_cases hsa : s = a
    · subst hsa
      have hval : s + (n + 1) - s = n + 1 := by omega
      rw [hval]
    · have h1 : countAbs r2 s = 0 := hzero s le_rfl (by omega)
      have hstep : List.range' s (n + 1) = s :: List.range' (s + 1) n := rfl
      rw [hstep, ivanovSchuppCore_skip r2 s _ h1]
      have h2 := ivanovSchuppCore_reach r2 a n (s + 1) (by omega) (by omega)
        (fun b hb1 hb2 => hzero b (by omega) hb2)
      rw [h2]
      have hval : s + 1 + n - a = s + (n + 1) - a := by omega
      rw [hval]

theorem count_wordPow (p : List Int) (d : Nat) (x : Int) :
    (wordPow p d).count x = d * p.count x := by
  induction d with
  | zero => simp [wordPow]
  | succ m ih =>
    show ((List.replicate (m + 1) p).flatten).count x = _
    rw [List.replicate_succ, List.flatten_cons, List.count_append]
    have : ((List.replicate m p).flatten).count x = m * p.count x := ih
    rw [this]
    ring

theorem foldr_max_eq_one (l : List Nat) (h : ∀ y ∈ l, y ≤ 1) : l.foldr max 1 = 1 := by
  induction l with
  | nil => rfl
  | cons x xs ih =>
    rw [List.foldr_cons, ih (fun y hy => h y (List.mem_cons_of_mem x hy))]
    have := h x (List.mem_cons_self x xs)
    omega

theorem degreeCR_eq_one_of_count_one (c : List Int) (x : Int) (h : c.count x = 1) :
    degreeCR c = 1 := by
  unfold degreeCR
  apply foldr_max_eq_one
  intro y hy
  rw [List.mem_filter] at hy
  obtain ⟨-, hrep⟩ := hy
  unfold isRepetition at hrep
  rw [Bool.and_eq_true, Bool.and_eq_true] at hrep
  obtain ⟨⟨-, -⟩, hpow⟩ := hrep
  have hpow' : wordPow (c.take (c.length / y)) y = c := of_decide_eq_true hpow
  have hcnt := count_wordPow (c.take (c.length / y)) y x
  rw [hpow', h] at hcnt
  have hdvd : y ∣ 1 := Dvd.intro _ hcnt.symm
  rw [Nat.dvd_one] at hdvd
  omega

theorem degree_eq_one_of_count_one (w : List Int) (x : Int)
    (hfr : freeReduce w = w) (hcr : cyclicReduce w = w) (h : w.count x = 1) :
    degree w = 1 := by
  unfold degree
  rw [hfr, hcr]
  exact degreeCR_eq_one_of_count_one w x h

/-- C2: for every cyclically reduced relator whose first generator a with a
nonzero occurrence count occurs exactly twice, once as a and once as the
inverse of a, the Ivanov-Schupp classifier lands in Theorem 3 case (2) and
returns thm3case2verdict of the rotated relator: NotHyperbolic with tag
Thm3(2b) when both split pieces have degree above one, else NotHyperbolic
with tag Thm3(2a) when one piece is conjugate into the other, else
Hyperbolic with tag Thm3(2); the degree test is applied before the conjugacy
test (see thm3case2verdict).  Stated for both revisions of the classifier. -/
theorem ivanovSchupp_acount2_case2 (R : List Int) (a : Nat)
    (hfr : freeReduce R = R) (hcr : cyclicReduce R = R) (ha : 1 ≤ a)
    (hfirst : ∀ b, 1 ≤ b → b < a → countAbs R b = 0)
    (hpos : R.count (a : Int) = 1) (hneg : R.count (-(a : Int)) = 1) :
    ivanovSchuppGeo R = thm3case2verdict (thm3rotToFirst R (a : Int)) a
    ∧ IvanovSchupp R = .ok (thm3case2verdict (thm3rotToFirst R (a : Int)) a) := by
  have hmem : (a : Int) ∈ R := List.count_pos_iff.mp (by omega)
  have hne : R ≠ [] := by
    rintro rfl
    cases hmem
  have hrank : a ≤ rankOf R := by
    have h := le_rankOf_of_mem R (a : Int) hmem
    simpa using h
  have hdeg : degree R = 1 := degree_eq_one_of_count_one R (a : Int) hfr hcr hpos
  have hcount2 : countAbs R a = 2 := by
    rw [countAbs_eq_count_add_count R a ha, hpos, hneg]
  obtain ⟨tl, hrot, htl⟩ := rotToFirst_count_one R (a : Int) hpos
  have hcore : ivanovSchuppCore R (List.range' 1 (rankOf R)) =
      thm3case2verdict (thm3rotToFirst R (a : Int)) a := by
    rw [ivanovSchuppCore_reach R a (rankOf R) 1 ha (by omega)
      (fun b hb1 hb2 => hfirst b hb1 hb2)]
    obtain ⟨m, hm⟩ : ∃ m, 1 + rankOf R - a = m + 1 := ⟨rankOf R - a, by omega⟩
    rw [hm]
    have hstep : List.range' a (m + 1) = a :: List.range' (a + 1) m := rfl
    rw [hstep]
    simp only [ivanovSchuppCore]
    rw [hcount2]
    rw [if_neg (show ¬ (2 : Nat) = 0 by omega)]
    rw [if_neg (show ¬ (2 : Nat) = 1 by omega)]
    rw [if_pos (show (2 : Nat) = 2 from rfl)]
    rw [hpos]
    rw [if_neg (show ¬ (1 : Nat) = 0 by omega)]
    rw [hrot]
    rw [if_neg (show ¬ 0 < (((a : Int) :: tl).drop 1).count ((a : Nat) : Int) from
      by simp [htl])]
  constructor
  · simp only [ivanovSchuppGeo]
    rw [if_neg hne, hfr, hcr]
    rw [if_neg (show ¬ 1 < degree R by rw [hdeg]; omega), hcore]
  · simp only [IvanovSchupp]
    rw [if_neg hne, hfr, hcr]
    rw [if_neg (show ¬ (R ≠ R) from fun h => h rfl)]
    rw [if_neg (show ¬ 1 < degree R by rw [hdeg]; omega), hcore]

/-- Witness for C2 at the doctest relator for Theorem 3 case (2). -/
theorem ivanovSchupp_acount2_case2_witness :
    (freeReduce [1, 2, 2, -1, 2, 3, -2, -3] = [1, 2, 2, -1, 2, 3, -2, -3]
      ∧ cyclicReduce [1, 2, 2, -1, 2, 3, -2, -3] = [1, 2, 2, -1, 2, 3, -2, -3]
      ∧ 1 ≤ 1
      ∧ (∀ b, 1 ≤ b → b < 1 → countAbs [1, 2, 2, -1, 2, 3, -2, -3] b = 0)
      ∧ List.count ((1 : Nat) : Int) [1, 2, 2, -1, 2, 3, -2, -3] = 1
      ∧ List.count (-((1 : Nat) : Int)) [1, 2, 2, -1, 2, 3, -2, -3] = 1)
    ∧ ivanovSchuppGeo [1, 2, 2, -1, 2, 3, -2, -3]
        = thm3case2verdict (thm3rotToFirst [1, 2, 2, -1, 2, 3, -2, -3] ((1 : Nat) : Int)) 1
    ∧ IvanovSchupp [1, 2, 2, -1, 2, 3, -2, -3]
        = .ok (thm3case2verdict (thm3rotToFirst [1, 2, 2, -1, 2, 3, -2, -3] ((1 : Nat) : Int)) 1) := by
  have h := ivanovSchupp_acount2_case2 [1, 2, 2, -1, 2, 3, -2, -3] 1
    (by decide) (by decide) (by decide) (by intro b hb1 hb2; omega) (by decide) (by decide)
  exact ⟨⟨by decide, by decide, by decide, by intro b hb1 hb2; omega, by decide, by decide⟩,
    h.1, h.2⟩

end OneRelatorGroups
